import Mathlib

/-!
# Verification of the DraculaDM session/narrative progression engine

Shallow embedding of `src/main.py`: the History Manager (`append_msg`),
the Progression State Machine (`init_state`, `advance_state`,
`state_summary`), the Bounded Completion Client (`call_openai`) and the
`/continue` handler (`continue_cmd`), with theorems settling the spec's
claims about them.

String handling mirrors the Python operations character-by-character:
`str.strip().lower()`, slicing `[:20]`, substring membership (`in`) and
`str.startswith`, all modelled on the underlying character list so that
every definition evaluates by kernel reduction.
-/

namespace DraculaDM

/-- One conversation message: `{"role": ..., "content": ...}`. -/
structure Turn where
  role : String
  content : String
deriving Repr, DecidableEq

/-! ## Python string primitives -/

/-- Python `str.strip()`: drop leading and trailing whitespace. -/
def pyStrip (s : String) : String :=
  String.mk (((s.data.dropWhile Char.isWhitespace).reverse.dropWhile Char.isWhitespace).reverse)

/-- Python `str.lower()` (ASCII range, which is all the engine compares). -/
def pyLower (s : String) : String :=
  String.mk (s.data.map Char.toLower)

/-- Python slice `s[:n]`. -/
def pyTake (s : String) (n : Nat) : String :=
  String.mk (s.data.take n)

/-- Python `pat in hay` (substring membership): some suffix of `hay`
starts with `pat`. -/
def strContains (hay pat : String) : Bool :=
  hay.data.tails.any pat.data.isPrefixOf

/-- Python `hay.startswith(pat)`. -/
def strStarts (hay pat : String) : Bool :=
  pat.data.isPrefixOf hay.data

/-! ## History Manager -/

/-- `append_msg` (src/main.py:185-190): append one turn, then if the
history holds more than 80 turns keep turn 0 plus the most recent 60. -/
def append_msg (hist : List Turn) (role content : String) : List Turn :=
  let h := hist ++ [⟨role, content⟩]
  if 80 < h.length then h.take 1 ++ h.drop (h.length - 60) else h

/-- A fresh history as seeded by `get_history`: just the system turn. -/
def initHistory (sys : Turn) : List Turn := [sys]

/-- Replay a sequence of `(role, content)` appends from a fresh history. -/
def runAppends (sys : Turn) (events : List (String × String)) : List Turn :=
  events.foldl (fun h e => append_msg h e.1 e.2) (initHistory sys)

/-! ## Progression State Machine -/

/-- The per-conversation progression record
`{"act": ..., "beat": ..., "recent_choices": ..., "awaiting_other": ...}`. -/
structure ProgState where
  act : Nat
  beat : Nat
  recent_choices : List String
  awaiting_other : Bool
deriving Repr, DecidableEq

/-- `init_state` (src/main.py:152-155): the fresh progression record. -/
def init_state : ProgState :=
  { act := 1, beat := 1, recent_choices := [], awaiting_other := false }

/-- Normalization applied to the raw user text:
`(user_text or "").strip().lower()`. -/
def normalize (user_text : String) : String :=
  pyLower (pyStrip user_text)

/-- The restart test (src/main.py:207):
`"start again" in choice or "restart" in choice`. -/
def isRestart (choice : String) : Bool :=
  strContains choice "start again" || strContains choice "restart"

/-- The bare 1-4 selection test used while awaiting a custom action
(src/main.py:214): `choice in {"1","2","3","4"}` or
`choice.startswith(("1)", "2)", "3)", "4)"))`. -/
def isBareSelection (choice : String) : Bool :=
  choice == "1" || choice == "2" || choice == "3" || choice == "4" ||
    strStarts choice "1)" || strStarts choice "2)" ||
    strStarts choice "3)" || strStarts choice "4)"

/-- The "Other" selection test (src/main.py:228):
`choice in {"4"} or choice.startswith("4)") or "other" in choice`. -/
def isOtherChoice (choice : String) : Bool :=
  choice == "4" || strStarts choice "4)" || strContains choice "other"

/-- The act rollover block that `advance_state` runs after incrementing
`beat` (src/main.py:218-223 and 239-244). -/
def applyRollover (s : ProgState) : ProgState :=
  if s.act = 1 ∧ 4 < s.beat then { s with act := 2, beat := 5 }
  else if s.act = 2 ∧ 8 < s.beat then { s with act := 3, beat := 9 }
  else if s.act = 3 ∧ 10 < s.beat then { s with beat := 10 }
  else s

/-- `advance_state` (src/main.py:201-246): normalize the input, append it
(truncated to 20 characters) to `recent_choices`, then run the rules:
restart, resolving a pending "Other", entering "Other", normal advance. -/
def advance_state (st : ProgState) (user_text : String) : ProgState :=
  let choice := normalize user_text
  let s := { st with recent_choices := st.recent_choices ++ [pyTake choice 20] }
  if isRestart choice then
    { act := 1, beat := 1, recent_choices := [], awaiting_other := false }
  else if s.awaiting_other then
    if !isBareSelection choice then
      applyRollover { s with awaiting_other := false, beat := s.beat + 1 }
    else s
  else if isOtherChoice choice then
    { s with awaiting_other := true }
  else
    applyRollover { s with beat := s.beat + 1 }

/-- Replay a sequence of raw user inputs from the fresh progression
record, one `advance_state` call per input. -/
def runAdvances (inputs : List String) : ProgState :=
  inputs.foldl advance_state init_state

/-- `state_summary` (src/main.py:192-199): the derived prompt line built
from the state; reads only the last three entries of `recent_choices`. -/
def state_summary (s : ProgState) : String :=
  let recent := if s.recent_choices.isEmpty then []
    else s.recent_choices.drop (s.recent_choices.length - 3)
  let recent_str := if recent.isEmpty then "none" else String.intercalate "," recent
  "SESSION STATE: act=" ++ toString s.act ++ ", beat=" ++ toString s.beat ++
    ", recent_choices=" ++ recent_str ++
    ". Advance to the next canon beat unless the player chose Other."

/-! ## Bounded Completion Client -/

/-- The possible outcomes of the external completion call as seen from
`call_openai`: a reply text, an outer timeout (`asyncio.TimeoutError`),
or any other exception rendered as a message string. -/
inductive CompletionOutcome where
  | success (text : String)
  | timeout
  | failure (err : String)
deriving Repr, DecidableEq

/-- `call_openai` (src/main.py:249-270), with the outcome of the awaited
completion call made explicit: the reply text on success, the fixed
in-universe fallback line on outer timeout, and a short diagnostic
embedding the error on any other failure.  Totality of this function is
the embedding of "never raises past this boundary". -/
def call_openai (o : CompletionOutcome) : String :=
  match o with
  | .success text => text
  | .timeout => "The narrator falls silent in a storm of static. Try your last action again."
  | .failure e => "Error talking to the model: " ++ e

/-! ## The `/continue` handler -/

/-- `continue_cmd` (src/main.py:295-303) acting on one conversation's
history and progression state: append the user turn `"/continue"`, call
the completion client, append the assistant turn.  `call_openai` only
reads state (it copies the history), so the progression state is passed
through untouched. -/
def continue_cmd (hist : List Turn) (st : ProgState) (o : CompletionOutcome) :
    List Turn × ProgState :=
  (append_msg (append_msg hist "user" "/continue") "assistant" (call_openai o), st)

/-! ## Spec-side rollover table (for refinement statements) -/

/-- The act-rollover table exactly as the spec words it: `act=1,beat>4 →
act=2,beat=5`; `act=2,beat>8 → act=3,beat=9`; `act=3,beat>10 → beat=10`. -/
def rolloverSpec (act beat : Nat) : Nat × Nat :=
  if act = 1 ∧ 4 < beat then (2, 5)
  else if act = 2 ∧ 8 < beat then (3, 9)
  else if act = 3 ∧ 10 < beat then (act, 10)
  else (act, beat)

/-! ## History Manager lemmas -/

/-- When the ceiling is not hit, `append_msg` is a plain append. -/
theorem append_msg_of_le (hist : List Turn) (role content : String)
    (h : hist.length + 1 ≤ 80) :
    append_msg hist role content = hist ++ [⟨role, content⟩] := by
  unfold append_msg
  simp only [List.length_append, List.length_singleton]
  rw [if_neg (by omega)]

/-- `append_msg` never evicts the head of a nonempty history. -/
theorem append_msg_head (hist : List Turn) (role content : String)
    (h : hist ≠ []) :
    (append_msg hist role content).head? = hist.head? := by
  unfold append_msg
  cases hist with
  | nil => exact absurd rfl h
  | cons a tl =>
    by_cases hlen : 80 < (a :: tl ++ [Turn.mk role content]).length
    · rw [if_pos hlen]
      simp
    · rw [if_neg hlen]
      simp

/-- `append_msg` keeps the history within the 80-turn ceiling. -/
theorem append_msg_length_le (hist : List Turn) (role content : String)
    (h : hist.length ≤ 80) :
    (append_msg hist role content).length ≤ 80 := by
  unfold append_msg
  by_cases hlen : 80 < (hist ++ [Turn.mk role content]).length
  · rw [if_pos hlen]
    simp only [List.length_append, List.length_take, List.length_drop,
      List.length_singleton] at *
    omega
  · rw [if_neg hlen]
    simp only [List.length_append, List.length_singleton] at *
    omega

/-- Both invariants of the trimmed history survive any further appends. -/
theorem runAppends_invariant (sys : Turn) (events : List (String × String)) :
    ∀ hist : List Turn, hist.head? = some sys → hist.length ≤ 80 →
      (events.foldl (fun h e => append_msg h e.1 e.2) hist).head? = some sys ∧
      (events.foldl (fun h e => append_msg h e.1 e.2) hist).length ≤ 80 := by
  induction events with
  | nil => exact fun hist h1 h2 => ⟨h1, h2⟩
  | cons e es ih =>
    intro hist h1 h2
    simp only [List.foldl_cons]
    refine ih (append_msg hist e.1 e.2) ?_ ?_
    · rw [append_msg_head hist e.1 e.2 (by rintro rfl; simp at h1)]
      exact h1
    · exact append_msg_length_le hist e.1 e.2 h2

/-- C1: starting from a history seeded with the system instruction turn,
any sequence of appends leaves that turn at index 0 and keeps the total
number of retained turns at most 80; moreover, whenever an append pushes
the history past 80 turns, exactly turn 0 plus the most recent 60 turns
are retained. -/
theorem history_preserves_system_and_ceiling :
    (∀ (sys : Turn) (events : List (String × String)),
        (runAppends sys events).head? = some sys ∧
        (runAppends sys events).length ≤ 80) ∧
    (∀ (hist : List Turn) (role content : String),
        80 < hist.length + 1 →
        append_msg hist role content
          = (hist ++ [Turn.mk role content]).take 1
            ++ (hist ++ [Turn.mk role content]).drop (hist.length + 1 - 60)) := by
  constructor
  · intro sys events
    exact runAppends_invariant sys events [sys] rfl (by simp)
  · intro hist role content h
    unfold append_msg
    rw [if_pos (by simp; omega)]
    simp

/-- Witness for C1's trimming clause at a concrete 80-turn history. -/
theorem history_preserves_system_and_ceiling_witness :
    80 < (List.replicate 80 (Turn.mk "user" "y")).length + 1 ∧
    append_msg (List.replicate 80 (Turn.mk "user" "y")) "user" "x"
      = ((List.replicate 80 (Turn.mk "user" "y")) ++ [Turn.mk "user" "x"]).take 1
        ++ ((List.replicate 80 (Turn.mk "user" "y")) ++ [Turn.mk "user" "x"]).drop
            ((List.replicate 80 (Turn.mk "user" "y")).length + 1 - 60) :=
  ⟨by simp, history_preserves_system_and_ceiling.2
    (List.replicate 80 (Turn.mk "user" "y")) "user" "x" (by simp)⟩

/-! ## Progression State Machine lemmas -/

/-- The act-rollover boundaries from the spec's data-model invariant:
act 1 spans beats 1-4, act 2 spans 5-8, act 3 spans 9-10. -/
def goodState (s : ProgState) : Prop :=
  (s.act = 1 ∨ s.act = 2 ∨ s.act = 3) ∧
  (s.act = 1 → 1 ≤ s.beat ∧ s.beat ≤ 4) ∧
  (s.act = 2 → 5 ≤ s.beat ∧ s.beat ≤ 8) ∧
  (s.act = 3 → 9 ≤ s.beat ∧ s.beat ≤ 10)

instance (s : ProgState) : Decidable (goodState s) := by
  unfold goodState
  infer_instance

/-- `applyRollover` only touches `act` and `beat`. -/
theorem applyRollover_recent_awaiting (s : ProgState) :
    (applyRollover s).recent_choices = s.recent_choices ∧
    (applyRollover s).awaiting_other = s.awaiting_other := by
  unfold applyRollover
  split_ifs <;> exact ⟨rfl, rfl⟩

/-- `applyRollover` agrees with the spec's rollover table on `(act, beat)`. -/
theorem applyRollover_eq_rolloverSpec (s : ProgState) :
    ((applyRollover s).act, (applyRollover s).beat) = rolloverSpec s.act s.beat := by
  unfold applyRollover rolloverSpec
  split_ifs with h1 h2 h3 <;> simp_all

/-- Rolling over a beat that is at most one past its act's range lands
back inside the boundaries. -/
theorem applyRollover_good (s : ProgState)
    (h : (s.act = 1 ∧ 1 ≤ s.beat ∧ s.beat ≤ 5) ∨
         (s.act = 2 ∧ 5 ≤ s.beat ∧ s.beat ≤ 9) ∨
         (s.act = 3 ∧ 9 ≤ s.beat ∧ s.beat ≤ 11)) :
    goodState (applyRollover s) := by
  unfold applyRollover goodState
  split_ifs with hA hB hC
  all_goals simp_all
  all_goals omega

/-- One step of `advance_state` preserves the act/beat boundaries. -/
theorem advance_state_good (s : ProgState) (input : String)
    (h : goodState s) : goodState (advance_state s input) := by
  obtain ⟨hacts, h1, h2, h3⟩ := h
  unfold advance_state
  dsimp only
  split_ifs with hr hw hb ho
  · exact by decide
  · apply applyRollover_good
    simp only
    rcases hacts with ha | ha | ha
    · exact Or.inl ⟨ha, by have := h1 ha; omega⟩
    · exact Or.inr (Or.inl ⟨ha, by have := h2 ha; omega⟩)
    · exact Or.inr (Or.inr ⟨ha, by have := h3 ha; omega⟩)
  · exact ⟨hacts, h1, h2, h3⟩
  · exact ⟨hacts, h1, h2, h3⟩
  · apply applyRollover_good
    simp only
    rcases hacts with ha | ha | ha
    · exact Or.inl ⟨ha, by have := h1 ha; omega⟩
    · exact Or.inr (Or.inl ⟨ha, by have := h2 ha; omega⟩)
    · exact Or.inr (Or.inr ⟨ha, by have := h3 ha; omega⟩)

/-- The boundaries survive any further inputs. -/
theorem foldl_advance_good (inputs : List String) :
    ∀ s : ProgState, goodState s → goodState (inputs.foldl advance_state s) := by
  induction inputs with
  | nil => exact fun s h => h
  | cons i is ih =>
    intro s h
    exact ih (advance_state s i) (advance_state_good s i h)

/-- C4: every state reachable from the fresh progression record by any
sequence of `advance_state` calls keeps `act` in 1..3 with `beat` inside
that act's rollover boundaries (1-4, 5-8, 9-10 respectively). -/
theorem reachable_states_respect_boundaries (inputs : List String) :
    goodState (runAdvances inputs) :=
  foldl_advance_good inputs init_state (by decide)

/-- C8: an input whose normalized form contains "start again" or
"restart" resets any prior progression state to the fresh record
`{act:1, beat:1, recent_choices:[], awaiting_other:false}`, and no other
transition rule runs that turn. -/
theorem restart_resets_state (s : ProgState) (input : String)
    (hR : isRestart (normalize input) = true) :
    advance_state s input
      = { act := 1, beat := 1, recent_choices := [], awaiting_other := false } := by
  unfold advance_state
  dsimp only
  rw [if_pos hR]

/-- Witness for C8: "Start Again please" resets from act 3, beat 10. -/
theorem restart_resets_state_witness :
    isRestart (normalize "Start Again please") = true ∧
    advance_state (ProgState.mk 3 10 ["x"] true) "Start Again please"
      = { act := 1, beat := 1, recent_choices := [], awaiting_other := false } :=
  ⟨by decide, restart_resets_state (ProgState.mk 3 10 ["x"] true) "Start Again please" (by decide)⟩

/-- C5: with no clarification pending, an input that is neither a restart
phrase nor an "Other" selection advances `beat` by exactly one and then
applies the act-rollover table. -/
theorem normal_input_advances_beat (s : ProgState) (input : String)
    (hA : s.awaiting_other = false)
    (hR : isRestart (normalize input) = false)
    (hO : isOtherChoice (normalize input) = false) :
    ((advance_state s input).act, (advance_state s input).beat)
      = rolloverSpec s.act (s.beat + 1) := by
  unfold advance_state
  dsimp only
  rw [if_neg (by simp [hR]), if_neg (by simp [hA]), if_neg (by simp [hO])]
  exact applyRollover_eq_rolloverSpec _

/-- Witness for C5: act 1, beat 4 with input "3" rolls over to act 2,
beat 5. -/
theorem normal_input_advances_beat_witness :
    (ProgState.mk 1 4 [] false).awaiting_other = false ∧
    isRestart (normalize "3") = false ∧
    isOtherChoice (normalize "3") = false ∧
    ((advance_state (ProgState.mk 1 4 [] false) "3").act,
      (advance_state (ProgState.mk 1 4 [] false) "3").beat) = (2, 5) :=
  ⟨rfl, by decide, by decide,
    (normal_input_advances_beat (ProgState.mk 1 4 [] false) "3" rfl (by decide)
      (by decide)).trans (by decide)⟩

/-- C6: with a clarification pending, an input that is neither a restart
phrase nor a bare 1-4 selection clears `awaiting_other` and advances
`beat` by exactly one, applying the act-rollover table. -/
theorem clarifying_input_resolves_other (s : ProgState) (input : String)
    (hA : s.awaiting_other = true)
    (hR : isRestart (normalize input) = false)
    (hB : isBareSelection (normalize input) = false) :
    (advance_state s input).awaiting_other = false ∧
    ((advance_state s input).act, (advance_state s input).beat)
      = rolloverSpec s.act (s.beat + 1) := by
  unfold advance_state
  dsimp only
  rw [if_neg (by simp [hR]), if_pos hA, if_pos (by simp [hB])]
  exact ⟨(applyRollover_recent_awaiting _).2, applyRollover_eq_rolloverSpec _⟩

/-- Witness for C6: a free-form clarification while awaiting "Other"
resolves the sub-state and moves the beat forward. -/
theorem clarifying_input_resolves_other_witness :
    (ProgState.mk 1 2 [] true).awaiting_other = true ∧
    isRestart (normalize "I hide behind the curtain") = false ∧
    isBareSelection (normalize "I hide behind the curtain") = false ∧
    ((advance_state (ProgState.mk 1 2 [] true) "I hide behind the curtain").awaiting_other = false ∧
      ((advance_state (ProgState.mk 1 2 [] true) "I hide behind the curtain").act,
        (advance_state (ProgState.mk 1 2 [] true) "I hide behind the curtain").beat)
        = rolloverSpec 1 (2 + 1)) :=
  ⟨rfl, by decide, by decide,
    clarifying_input_resolves_other (ProgState.mk 1 2 [] true) "I hide behind the curtain"
      rfl (by decide) (by decide)⟩

/-- C7: with no clarification pending, a non-restart input whose
normalized form is exactly "4", starts with "4)", or contains "other"
only sets `awaiting_other`; `act` and `beat` are untouched. -/
theorem other_selection_freezes_beat (s : ProgState) (input : String)
    (hA : s.awaiting_other = false)
    (hR : isRestart (normalize input) = false)
    (hO : isOtherChoice (normalize input) = true) :
    (advance_state s input).awaiting_other = true ∧
    (advance_state s input).act = s.act ∧
    (advance_state s input).beat = s.beat := by
  unfold advance_state
  dsimp only
  rw [if_neg (by simp [hR]), if_neg (by simp [hA]), if_pos hO]
  exact ⟨rfl, rfl, rfl⟩

/-- Witness for C7: the input "Other" (upper case) enters the
clarification sub-state without advancing the beat. -/
theorem other_selection_freezes_beat_witness :
    init_state.awaiting_other = false ∧
    isRestart (normalize "Other") = false ∧
    isOtherChoice (normalize "Other") = true ∧
    ((advance_state init_state "Other").awaiting_other = true ∧
      (advance_state init_state "Other").act = init_state.act ∧
      (advance_state init_state "Other").beat = init_state.beat) :=
  ⟨rfl, by decide, by decide,
    other_selection_freezes_beat init_state "Other" rfl (by decide) (by decide)⟩

/-- C2 counterexample: with a clarification pending, the bare selection
"2" does not leave the whole record unchanged — the normalized input is
still appended to `recent_choices`. -/
theorem awaiting_bare_selection_not_identity :
    advance_state (ProgState.mk 1 2 [] true) "2" ≠ ProgState.mk 1 2 [] true ∧
    advance_state (ProgState.mk 1 2 [] true) "2" = ProgState.mk 1 2 ["2"] true := by
  decide

/-- C2 as amended: with a clarification pending, a non-restart bare 1-4
selection leaves `act`, `beat` and `awaiting_other` (still true)
unchanged, but appends the normalized, truncated input to
`recent_choices`. -/
theorem awaiting_bare_selection_keeps_progress (s : ProgState) (input : String)
    (hA : s.awaiting_other = true)
    (hR : isRestart (normalize input) = false)
    (hB : isBareSelection (normalize input) = true) :
    advance_state s input
      = { s with recent_choices := s.recent_choices ++ [pyTake (normalize input) 20] } := by
  unfold advance_state
  dsimp only
  rw [if_neg (by simp [hR]), if_pos hA, if_neg (by simp [hB])]

/-- Witness for C2's amended statement at the same concrete input. -/
theorem awaiting_bare_selection_keeps_progress_witness :
    (ProgState.mk 1 5 ["a"] true).awaiting_other = true ∧
    isRestart (normalize "2)") = false ∧
    isBareSelection (normalize "2)") = true ∧
    advance_state (ProgState.mk 1 5 ["a"] true) "2)"
      = { ProgState.mk 1 5 ["a"] true with
          recent_choices := ["a"] ++ [pyTake (normalize "2)") 20] } :=
  ⟨rfl, by decide, by decide,
    awaiting_bare_selection_keeps_progress (ProgState.mk 1 5 ["a"] true) "2)"
      rfl (by decide) (by decide)⟩

/-- C3 counterexample: `recent_choices` is not a bounded window — five
non-restart turns from the fresh record retain all five entries, more
than the three the summary ever reads, and nothing is ever dropped. -/
theorem recent_choices_unbounded_growth :
    (runAdvances ["a", "b", "c", "d", "e"]).recent_choices = ["a", "b", "c", "d", "e"] ∧
    3 < (runAdvances ["a", "b", "c", "d", "e"]).recent_choices.length := by
  decide

/-- Every list keeps the same trailing three-element window after being
cut down to that window. -/
theorem lastThreeWindow_idem (l : List String) :
    (if l.isEmpty then ([] : List String) else l.drop (l.length - 3))
      = (if (l.drop (l.length - 3)).isEmpty then ([] : List String)
          else (l.drop (l.length - 3)).drop ((l.drop (l.length - 3)).length - 3)) := by
  cases l with
  | nil => simp
  | cons a tl =>
    rw [if_neg (by simp)]
    have hlen : ((a :: tl).drop ((a :: tl).length - 3)).length ≤ 3 := by
      rw [List.length_drop]
      omega
    have hpos : 0 < ((a :: tl).drop ((a :: tl).length - 3)).length := by
      rw [List.length_drop]
      simp only [List.length_cons]
      omega
    rw [if_neg (by simp only [List.isEmpty_iff]; exact List.ne_nil_of_length_pos hpos),
      Nat.sub_eq_zero_of_le hlen, List.drop_zero]

/-- C3 as amended: every entry appended to `recent_choices` is the
normalized input truncated to 20 characters and no entry is ever
dropped outside a restart (the list grows without bound); the summary
reads only the trailing three entries. -/
theorem recent_choices_normalized_and_window :
    (∀ (s : ProgState) (input : String), isRestart (normalize input) = false →
        (advance_state s input).recent_choices
          = s.recent_choices ++ [pyTake (normalize input) 20]) ∧
    (∀ s : ProgState,
        state_summary s
          = state_summary { s with recent_choices :=
              s.recent_choices.drop (s.recent_choices.length - 3) }) := by
  constructor
  · intro s input hR
    unfold advance_state
    dsimp only
    rw [if_neg (by simp [hR])]
    split_ifs with h1 h2 h3
    · exact (applyRollover_recent_awaiting _).1
    · rfl
    · rfl
    · exact (applyRollover_recent_awaiting _).1
  · intro s
    unfold state_summary
    dsimp only
    rw [lastThreeWindow_idem s.recent_choices]

/-- Witness for C3's amended statement: a 21-character free-text input is
appended truncated, and the summary of a four-entry record equals the
summary of its trailing three entries. -/
theorem recent_choices_normalized_and_window_witness :
    isRestart (normalize "flee down the stairs now") = false ∧
    (advance_state (ProgState.mk 1 2 ["a"] false) "flee down the stairs now").recent_choices
      = ["a"] ++ [pyTake (normalize "flee down the stairs now") 20] ∧
    state_summary (ProgState.mk 2 6 ["a", "b", "c", "d"] false)
      = state_summary { ProgState.mk 2 6 ["a", "b", "c", "d"] false with
          recent_choices := (["a", "b", "c", "d"] : List String).drop
            ((["a", "b", "c", "d"] : List String).length - 3) } :=
  ⟨by decide,
    recent_choices_normalized_and_window.1 (ProgState.mk 1 2 ["a"] false)
      "flee down the stairs now" (by decide),
    recent_choices_normalized_and_window.2 (ProgState.mk 2 6 ["a", "b", "c", "d"] false)⟩

/-- C9: the completion client maps every outcome of the external call to
displayable text — the fixed in-universe fallback line on outer timeout,
a short diagnostic embedding the error on any other failure, and the
reply itself on success; being a total function, it raises nothing past
its boundary. -/
theorem call_openai_total_boundary :
    call_openai CompletionOutcome.timeout
      = "The narrator falls silent in a storm of static. Try your last action again." ∧
    (∀ e, call_openai (CompletionOutcome.failure e) = "Error talking to the model: " ++ e) ∧
    (∀ t, call_openai (CompletionOutcome.success t) = t) :=
  ⟨rfl, fun _ => rfl, fun _ => rfl⟩

/-- C10: `/continue` passes the progression state through untouched and,
once trimming is accounted for, appends exactly the user turn
"/continue" followed by one assistant turn. -/
theorem continue_cmd_frame (hist : List Turn) (st : ProgState) (o : CompletionOutcome) :
    (continue_cmd hist st o).2 = st ∧
    (hist.length ≤ 78 →
      (continue_cmd hist st o).1
        = hist ++ [Turn.mk "user" "/continue", Turn.mk "assistant" (call_openai o)]) := by
  refine ⟨rfl, fun h => ?_⟩
  unfold continue_cmd
  dsimp only
  rw [append_msg_of_le hist "user" "/continue" (by omega),
    append_msg_of_le _ "assistant" _ (by simp only [List.length_append]; simp; omega)]
  simp

/-- Witness for C10 on a one-turn history and a timed-out completion. -/
theorem continue_cmd_frame_witness :
    ([Turn.mk "system" "p"] : List Turn).length ≤ 78 ∧
    (continue_cmd [Turn.mk "system" "p"] init_state CompletionOutcome.timeout).2 = init_state ∧
    (continue_cmd [Turn.mk "system" "p"] init_state CompletionOutcome.timeout).1
      = [Turn.mk "system" "p"]
        ++ [Turn.mk "user" "/continue",
            Turn.mk "assistant" (call_openai CompletionOutcome.timeout)] :=
  ⟨by decide,
    (continue_cmd_frame [Turn.mk "system" "p"] init_state CompletionOutcome.timeout).1,
    (continue_cmd_frame [Turn.mk "system" "p"] init_state CompletionOutcome.timeout).2
      (by decide)⟩

end DraculaDM
